import Mathlib

/-!
Shallow embedding of `sweagent/agent/history_processors.py`: the transcript
compaction strategies (history processors) of the SWE-agent repository, and
proofs of the specification claims about them.

Conversation entries are modelled as records with a `role`, a `content`
(a list of characters), and the two boolean flags the Python dicts may carry
(`is_demo`, read by most processors, and `demo`, read by `StripFailedEdits`).
Python exceptions are modelled by `Option`/`Except` results.
-/

/-- The characters of a string literal, used to write concrete contents. -/
def chars (s : String) : List Char := s.data

/-- One transcript record, modelling the Python history dict:
`role` and `content` keys plus the two demo flags (`dict.get` with a
`False` default is modelled by a `Bool` field). -/
structure Entry where
  role : String
  content : List Char
  is_demo : Bool
  demo : Bool
deriving DecidableEq

/-- Python `needle in hay` substring test on character lists. -/
def hasInfixChars (needle : List Char) : List Char → Bool
  | [] => needle.isEmpty
  | c :: rest => needle.isPrefixOf (c :: rest) || hasInfixChars needle rest

/-- The fixed marker string `StripFailedEdits` looks for. -/
def failedEditMarker : List Char := chars "Your proposed edit has introduced new syntax error"

/-- The placeholder `StripFailedEdits` substitutes. -/
def failedEditPlaceholder : List Char := chars "Output of failed edit omitted."

/-- Model of `StripFailedEdits._is_failed_edit`. -/
def isFailedEdit (e : Entry) : Bool :=
  if e.role ≠ "user" then false
  else if e.demo then false
  else if hasInfixChars failedEditMarker e.content then true
  else false

/-- Model of `StripFailedEdits._process_entry`. -/
def processFE (e : Entry) : Entry :=
  if isFailedEdit e then { e with content := failedEditPlaceholder } else e

/-- Model of `StripFailedEdits.__call__`: processes every entry but the last; on an
empty history the Python `history[-1]` raises `IndexError`, modelled by
`none`. -/
def stripFailedEditsCall (h : List Entry) : Option (List Entry) :=
  match h.getLast? with
  | none => none
  | some last => some (h.dropLast.map processFE ++ [last])

/-- Model of `DefaultHistoryProcessor.__call__`: returns the identical history. -/
def defaultCall (H : List Entry) : List Entry := H

/-- The lines of a content string, each keeping its terminating newline
(if any); models the line decomposition behind Python `str.splitlines`
restricted to the `\n` boundary the repository's contents use. -/
def linesKeepNL : List Char → List (List Char)
  | [] => []
  | c :: rest =>
    if c = '\n' then ['\n'] :: linesKeepNL rest
    else
      match linesKeepNL rest with
      | [] => [[c]]
      | l :: ls => (c :: l) :: ls

/-- Model of `len(content.splitlines())`. -/
def lineCount (s : List Char) : Nat := (linesKeepNL s).length

/-- The placeholder `'Old output omitted (<n_lines> lines)'` used by
`MaxNObservations._strip_observation` and `last_n_history`. -/
def oldOutputOmitted (k : Nat) : List Char :=
  chars "Old output omitted (" ++ (Nat.repr k).data ++ chars " lines)"

/-- Model of `MaxNObservations._strip_observation` / the stripping branch of
`last_n_history`: replace the content by the placeholder built from the
original content's line count. -/
def stripObservation (e : Entry) : Entry :=
  { e with content := oldOutputOmitted (lineCount e.content) }

/-- The filter `entry["role"] == "user" and not entry.get("is_demo", False)`. -/
def isUserMsg (e : Entry) : Bool := decide (e.role = "user" ∧ e.is_demo = false)

/-- Model of `user_messages` of `MaxNObservations.__call__` / `last_n_history`. -/
def userMsgs (H : List Entry) : List Entry := H.filter isUserMsg

/-- Model of `n_user_messages`. -/
def nUserMsgs (H : List Entry) : Nat := (userMsgs H).length

/-- Model of `len(entry["content"]) > long_output_char_thld`. -/
def isLongMsg (thld : Int) (e : Entry) : Bool := decide ((e.content.length : Int) > thld)

/-- Model of `n_long_ums`: the number of long non-demo user messages. -/
def nLongUserMsgs (thld : Int) (H : List Entry) : Nat :=
  ((userMsgs H).filter (isLongMsg thld)).length

/-- The loop of `MaxNObservations.__call__`, carrying `user_msg_idx` and
`n_long_added` and additionally counting how many entries were stripped.
`nUser` and `nLong` are the precomputed totals. -/
def maxNAux (n max_age thld : Int) (nUser nLong : Nat) :
    List Entry → Nat → Nat → List Entry × Nat
  | [], _, _ => ([], 0)
  | e :: rest, idx, added =>
    if e.role ≠ "user" then
      let r := maxNAux n max_age thld nUser nLong rest idx added
      (e :: r.1, r.2)
    else if e.is_demo then
      let r := maxNAux n max_age thld nUser nLong rest idx added
      (e :: r.1, r.2)
    else if idx + 1 = 1 then
      let r := maxNAux n max_age thld nUser nLong rest (idx + 1) added
      (e :: r.1, r.2)
    else if ((nLong : Int) - (added : Int) > n ∨ (nUser : Int) - ((idx : Int) + 1) > max_age)
        ∧ (e.content.length : Int) > thld then
      let r := maxNAux n max_age thld nUser nLong rest (idx + 1) added
      (stripObservation e :: r.1, r.2 + 1)
    else
      let r := maxNAux n max_age thld nUser nLong rest (idx + 1) (added + 1)
      (e :: r.1, r.2)

/-- Model of `MaxNObservations.__call__` (the returned history). -/
def maxNCall (n max_age thld : Int) (H : List Entry) : List Entry :=
  (maxNAux n max_age thld (nUserMsgs H) (nLongUserMsgs thld H) H 0 0).1

/-- The number of entries whose content `MaxNObservations.__call__` replaced. -/
def maxNStrips (n max_age thld : Int) (H : List Entry) : Nat :=
  (maxNAux n max_age thld (nUserMsgs H) (nLongUserMsgs thld H) H 0 0).2

/-- The loop of `last_n_history`, carrying `user_msg_idx`. -/
def lastNAux (n : Int) (nUser : Nat) : List Entry → Nat → List Entry
  | [], _ => []
  | e :: rest, idx =>
    if e.role ≠ "user" then e :: lastNAux n nUser rest idx
    else if e.is_demo then e :: lastNAux n nUser rest idx
    else if idx + 1 = 1 ∨
        ((nUser : Int) - n + 1 ≤ (idx : Int) + 1 ∧ (idx : Int) + 1 ≤ (nUser : Int)) then
      e :: lastNAux n nUser rest (idx + 1)
    else
      stripObservation e :: lastNAux n nUser rest (idx + 1)

/-- Model of `last_n_history`: raises `ValueError` (modelled by `.error`) on
non-positive `n`, before any processing. -/
def lastNHistory (H : List Entry) (n : Int) : Except String (List Entry) :=
  if n ≤ 0 then .error "n must be a positive integer"
  else .ok (lastNAux n (nUserMsgs H) H 0)

/-- Model of `LastNObservations(n).__call__`. -/
def lastNObservationsCall (n : Int) (H : List Entry) : Except String (List Entry) :=
  lastNHistory H n

/-- Does a line match `^(\d+)\:` — one or more digits followed by a colon
at the start of the line? -/
def startsNumbered (line : List Char) : Bool :=
  let ds := line.takeWhile Char.isDigit
  !ds.isEmpty && decide ((line.drop ds.length).head? = some ':')

/-- Offsets of the numbered lines: the spans `(m.start(), m.end())` of the
matches of `ClosedWindowHistoryProcessor.pattern` (`^(\d+)\:.*?(\n|$)`,
multiline): each match covers a whole line starting with `digits:` and
includes its terminating newline when present. -/
def numberedSpansAux : Nat → List (List Char) → List (Nat × Nat)
  | _, [] => []
  | o, l :: ls =>
    if startsNumbered l then (o, o + l.length) :: numberedSpansAux (o + l.length) ls
    else numberedSpansAux (o + l.length) ls

/-- Model of `list(self.pattern.finditer(entry["content"]))` as a list of spans. -/
def numberedSpans (s : List Char) : List (Nat × Nat) :=
  numberedSpansAux 0 (linesKeepNL s)

/-- Python `\s` on the ASCII whitespace characters. -/
def pyIsSpace (c : Char) : Bool :=
  decide (c = ' ' ∨ c = '\t' ∨ c = '\n' ∨ c = '\r' ∨ c = '\x0b' ∨ c = '\x0c')

/-- Try counts from `hi` down to `lo` (greedy-with-backtracking order),
returning the first success. -/
def tryMax (lo hi : Nat) (f : Nat → Option α) : Option α :=
  ((List.range' lo (hi + 1 - lo)).reverse).findSome? f

/-- Backtracking matcher for the tail of
`ClosedWindowHistoryProcessor.file_pattern`
(`\[File:\s+(.*)\s+\(\d+\s+lines\ total\)\]`) after the literal `[File:`
has been consumed; returns the greedy group-1 capture (the file name). -/
def fileMatchTail (r : List Char) : Option (List Char) :=
  tryMax 1 (r.takeWhile pyIsSpace).length fun k1 =>
    let r1 := r.drop k1
    tryMax 0 (r1.takeWhile (fun c => decide (c ≠ '\n'))).length fun k2 =>
      let g := r1.take k2
      let r2 := r1.drop k2
      tryMax 1 (r2.takeWhile pyIsSpace).length fun k3 =>
        match r2.drop k3 with
        | '(' :: r4 =>
          tryMax 1 (r4.takeWhile Char.isDigit).length fun k4 =>
            let r5 := r4.drop k4
            tryMax 1 (r5.takeWhile pyIsSpace).length fun k5 =>
              if (chars "lines total)]").isPrefixOf (r5.drop k5) then some g else none
        | _ => none

/-- Model of `self.file_pattern.search(entry["content"])` followed by `group(1)`:
the leftmost match's file-name capture. -/
def fileSearchChars : List Char → Option (List Char)
  | [] => none
  | c :: rest =>
    match (if (chars "[File:").isPrefixOf (c :: rest)
           then fileMatchTail ((c :: rest).drop 6) else none) with
    | some g => some g
    | none => fileSearchChars rest

/-- The summary line `'Outdated window with <k> lines omitted...\n'`. -/
def outdatedWindow (k : Nat) : List Char :=
  chars "Outdated window with " ++ (Nat.repr k).data ++ chars " lines omitted...\n"

/-- The content rewrite of `ClosedWindowHistoryProcessor.__call__`:
`content[:matches[0].start()] + summary + content[matches[-1].end():]`. -/
def collapseContent (s : List Char) : List Char :=
  match numberedSpans s with
  | [] => s
  | m :: rest =>
    s.take m.1 ++ outdatedWindow (m :: rest).length ++ s.drop ((m :: rest).getLastD (0, 0)).2

/-- Model of `windows.add(file)` on the set of file names, modelled as a
duplicate-free list. -/
def insertFile (f : List Char) (w : List (List Char)) : List (List Char) :=
  if f ∈ w then w else f :: w

/-- The loop of `ClosedWindowHistoryProcessor.__call__` over the reversed
history, threading the `windows` set. The `continue` of the source (a
numbered-line entry with no file header) drops the entry. -/
def cwAux : List Entry → List (List Char) → List Entry
  | [], _ => []
  | e :: rest, windows =>
    if e.role ≠ "user" then e :: cwAux rest windows
    else if e.is_demo then e :: cwAux rest windows
    else
      match numberedSpans e.content with
      | [] => e :: cwAux rest windows
      | _ :: _ =>
        match fileSearchChars e.content with
        | none => cwAux rest windows
        | some f =>
          if f ∈ windows then
            { e with content := collapseContent e.content } :: cwAux rest (insertFile f windows)
          else
            e :: cwAux rest (insertFile f windows)

/-- Model of `ClosedWindowHistoryProcessor.__call__`: process the reversed history,
then reverse back. -/
def closedWindowCall (H : List Entry) : List Entry :=
  (cwAux H.reverse []).reverse

/-- Model of `Max5ObservationsNoFE.__call__`: failed-edit suppression, then
`MaxNObservations(n=5, max_age=10, long_output_char_thld=200)`. -/
def max5NoFECall (H : List Entry) : Option (List Entry) :=
  (stripFailedEditsCall H).map (maxNCall 5 10 200)

/-- Model of `Last5ObservationsNoFE.__call__`: failed-edit suppression, then
`last_n_history(_, 5)`. -/
def last5NoFECall (H : List Entry) : Option (List Entry) :=
  (stripFailedEditsCall H).bind fun h => (lastNHistory h 5).toOption

-- Concrete entry builders used by the examples and witnesses below.

/-- A plain tool-output (user-role) entry. -/
def uE (s : String) : Entry := ⟨"user", chars s, false, false⟩

/-- A system-role entry. -/
def sysE (s : String) : Entry := ⟨"system", chars s, false, false⟩

/-- An assistant-role entry. -/
def astE (s : String) : Entry := ⟨"assistant", chars s, false, false⟩

/-- A demonstration entry (`is_demo` set, as produced by the repository's
test helper `string_to_history`). -/
def demoE (s : String) : Entry := ⟨"user", chars s, true, false⟩

-- Model validation against the repository's test suite
-- (`tests/test_history_processors.py`).

/-- Model of `HISTORY_1` of the test suite. -/
def history1 : List Entry :=
  [sysE "Welcome to the SWE-Agent!", demoE "This is a demo message",
   uE "1", uE "2", uE "3", uE "4", uE "5", uE "6", uE "7", uE "8", uE "9", uE "10"]

/-- Model of `HISTORY_2` of the test suite. -/
def history2 : List Entry :=
  [sysE "Welcome to the SWE-Agent!", demoE "This is a demo message",
   uE "1 VERY LONG", astE "VERY LONG", uE "3", uE "4 VERY LONG", uE "5",
   uE "6 VERY LONG", uE "7", uE "8 VERY LONG", uE "9", uE "10 VERY LONG"]

/-- Model of `HISTORY_3` of the test suite. -/
def history3 : List Entry :=
  [sysE "Welcome to the SWE-Agent!", demoE "This is a demo message",
   uE "1 VERY LONG", astE "VERY LONG", uE "3", uE "4 VERY LONG", uE "5",
   uE "6 VERY LONG", uE "7 Your proposed edit has introduced new syntax error",
   uE "8 Your proposed edit has introduced new syntax error", uE "9",
   uE "10 Your proposed edit has introduced new syntax error"]

-- Specification-side definitions (used to state the claims).

/-- The number of non-demo user entries strictly before position `i`
(the 1-based user index of a user entry at `i` is `usersBefore H i + 1`). -/
def usersBefore (H : List Entry) (i : Nat) : Nat := (H.take i).countP isUserMsg

/-- The count/age-bounded suppression algorithm exactly as claim C2 words
it: a kept entry counts against the `n` budget only if it is long. Stated
from the claim's words, to be compared with `maxNCall` (the source). -/
def maxNClaimedAux (n max_age thld : Int) (nUser nLong : Nat) :
    List Entry → Nat → Nat → List Entry
  | [], _, _ => []
  | e :: rest, idx, alloc =>
    if e.role ≠ "user" then e :: maxNClaimedAux n max_age thld nUser nLong rest idx alloc
    else if e.is_demo then e :: maxNClaimedAux n max_age thld nUser nLong rest idx alloc
    else if idx + 1 = 1 then e :: maxNClaimedAux n max_age thld nUser nLong rest (idx + 1) alloc
    else if ((nLong : Int) - (alloc : Int) > n ∨ (nUser : Int) - ((idx : Int) + 1) > max_age)
        ∧ (e.content.length : Int) > thld then
      stripObservation e :: maxNClaimedAux n max_age thld nUser nLong rest (idx + 1) alloc
    else if (e.content.length : Int) > thld then
      e :: maxNClaimedAux n max_age thld nUser nLong rest (idx + 1) (alloc + 1)
    else
      e :: maxNClaimedAux n max_age thld nUser nLong rest (idx + 1) alloc

/-- Claim C2's algorithm on a whole history. -/
def maxNClaimed (n max_age thld : Int) (H : List Entry) : List Entry :=
  maxNClaimedAux n max_age thld (nUserMsgs H) (nLongUserMsgs thld H) H 0 0

/-- The concrete input on which claim C2's wording and the source diverge:
two short leading outputs followed by two long ones. -/
def cex2H : List Entry := [uE "a", uE "b", uE "cccccc", uE "dddddd"]

/-- The contents of the non-demo user entries, in order. -/
def userContents (H : List Entry) : List (List Char) := (H.filter isUserMsg).map Entry.content

/-- The suppression decisions of the count/age-bounded strategy as a
function of the non-demo user contents alone (the amended claim C2): the
first entry is kept; a subsequent entry is suppressed iff it is long and
(the remaining long count exceeds `n` or its age exceeds `max_age`), where
the remaining long count is the total number of long user entries minus
the number of subsequent entries kept so far — long or short. -/
def suppFlagsAll (n max_age thld : Int) (nUser nLong : Nat) :
    List (List Char) → Nat → Nat → List Bool
  | [], _, _ => []
  | c :: rest, idx, added =>
    if idx + 1 = 1 then false :: suppFlagsAll n max_age thld nUser nLong rest (idx + 1) added
    else if ((nLong : Int) - (added : Int) > n ∨ (nUser : Int) - ((idx : Int) + 1) > max_age)
        ∧ (c.length : Int) > thld then
      true :: suppFlagsAll n max_age thld nUser nLong rest (idx + 1) added
    else false :: suppFlagsAll n max_age thld nUser nLong rest (idx + 1) (added + 1)

/-- The suppression decisions for a history, one flag per non-demo user
entry in order. -/
def suppFlags (n max_age thld : Int) (H : List Entry) : List Bool :=
  suppFlagsAll n max_age thld (nUserMsgs H) (nLongUserMsgs thld H) (userContents H) 0 0

/-- Replace the content of the user entries selected by the given
per-user-entry flags, leaving every other entry untouched. -/
def applyFlags : List Entry → List Bool → List Entry
  | [], _ => []
  | e :: rest, flags =>
    if isUserMsg e then
      match flags with
      | [] => e :: applyFlags rest []
      | b :: bs => (if b then stripObservation e else e) :: applyFlags rest bs
    else e :: applyFlags rest flags

/-- The index-window suppression strategy as claim C5 words it: keep the
first non-demo user entry and the last `n` ones (those whose 1-based user
index `k` satisfies `nUser - k < n`) verbatim, replace every other
non-demo user entry's content by the line-count placeholder, pass
everything else through. -/
def lastNSpecAux (n : Int) (nUser : Nat) : List Entry → Nat → List Entry
  | [], _ => []
  | e :: rest, idx =>
    if isUserMsg e then
      (if idx + 1 = 1 ∨ (nUser : Int) - ((idx : Int) + 1) < n then e else stripObservation e)
        :: lastNSpecAux n nUser rest (idx + 1)
    else e :: lastNSpecAux n nUser rest idx

/-- Claim C5's description of `last_n_history` on a whole history. -/
def lastNSpec (H : List Entry) (n : Int) : List Entry :=
  lastNSpecAux n (nUserMsgs H) H 0

/-- Is the entry dropped by `ClosedWindowHistoryProcessor.__call__`'s
`continue` (a non-demo user entry with numbered-line matches but no file
header)? -/
def isDropped (e : Entry) : Bool :=
  decide (e.role = "user") && !e.is_demo && !(numberedSpans e.content).isEmpty
    && (fileSearchChars e.content).isNone

/-- The file rendered by an entry: a non-demo user entry with at least one
numbered-line match and a file header renders that header's file. -/
def rendersFile (e : Entry) : Option (List Char) :=
  if e.role = "user" ∧ e.is_demo = false ∧ numberedSpans e.content ≠ [] then
    fileSearchChars e.content
  else none

/-- The entry emitted by the stale-view strategy for one input entry,
given the set of files already seen (later renderings). -/
def cwOut (e : Entry) (w : List (List Char)) : Entry :=
  if e.role ≠ "user" then e
  else if e.is_demo then e
  else
    match numberedSpans e.content with
    | [] => e
    | _ :: _ =>
      match fileSearchChars e.content with
      | none => e
      | some f => if f ∈ w then { e with content := collapseContent e.content } else e

/-- The (zero- or one-element) output of the stale-view strategy for one
input entry. -/
def cwStep (e : Entry) (w : List (List Char)) : List Entry :=
  if isDropped e then [] else [cwOut e w]

/-- The seen-set update for one entry. -/
def cwState (e : Entry) (w : List (List Char)) : List (List Char) :=
  match rendersFile e with
  | some f => insertFile f w
  | none => w

/-- The seen set accumulated over a list of entries. -/
def cwSeenList (L : List Entry) (w : List (List Char)) : List (List Char) :=
  L.foldl (fun acc e => cwState e acc) w

/-- The files rendered by entries chronologically after position `i`. -/
def laterFiles (H : List Entry) (i : Nat) : List (List Char) :=
  (H.drop (i + 1)).filterMap rendersFile

/-- The number of entries before position `i` that the stale-view strategy
keeps (does not drop): the output position of a kept entry at `i`. -/
def keptBefore (H : List Entry) (i : Nat) : Nat :=
  (H.take i).countP (fun e => !isDropped e)

-- Heap model. The Python processors mutate dict objects (after a
-- deepcopy or a per-entry `dict.copy`); to state that an application is
-- side-effect-free on its input (claim C9), the dicts are modelled as
-- cells of an explicit heap addressed by allocation order, and each
-- processor is re-expressed at the heap level with its allocations and
-- in-place writes explicit. A history is then a list of cell addresses.

/-- The value of an absent cell. -/
def defaultEntry : Entry := ⟨"", [], false, false⟩

/-- An explicit store of entry dicts; an address is an index. -/
structure Heap where
  cells : List Entry
deriving DecidableEq

/-- Read the dict at an address. -/
def Heap.read (h : Heap) (a : Nat) : Entry := (h.cells[a]?).getD defaultEntry

/-- In-place update of the dict at an address. -/
def Heap.store (h : Heap) (a : Nat) (e : Entry) : Heap := ⟨h.cells.set a e⟩

/-- Allocate a fresh dict, returning its address. -/
def Heap.alloc (h : Heap) (e : Entry) : Heap × Nat := (⟨h.cells ++ [e]⟩, h.cells.length)

/-- Model of `copy.deepcopy` of a list of dicts: fresh cells holding the same
values. -/
def deepcopyH (h : Heap) : List Nat → Heap × List Nat
  | [] => (h, [])
  | r :: rs =>
    let (h1, a) := h.alloc (h.read r)
    let (h2, as1) := deepcopyH h1 rs
    (h2, a :: as1)

/-- Model of `DefaultHistoryProcessor.__call__` at the heap level: returns the
input list itself. -/
def defaultHeap (h : Heap) (refs : List Nat) : Heap × List Nat := (h, refs)

/-- The mutation loop of `StripFailedEdits.__call__` over the deep-copied
entries (all but the last): `_process_entry` writes the placeholder in
place on failed edits. -/
def sfeHeapLoop : Heap → List Nat → Heap
  | h, [] => h
  | h, r :: rs =>
    let e := h.read r
    let h1 := if isFailedEdit e then h.store r { e with content := failedEditPlaceholder } else h
    sfeHeapLoop h1 rs

/-- Model of `StripFailedEdits.__call__` at the heap level: deepcopy, mutate all
but the last copy, return the copies (`none` models the `IndexError` on an
empty history; the deepcopy has already happened when it is raised). -/
def sfeHeap (h : Heap) (refs : List Nat) : Heap × Option (List Nat) :=
  let (h1, refs1) := deepcopyH h refs
  match refs1.getLast? with
  | none => (h1, none)
  | some lastRef => (sfeHeapLoop h1 refs1.dropLast, some (refs1.dropLast ++ [lastRef]))

/-- The loop of `MaxNObservations.__call__` at the heap level:
`_strip_observation` mutates the (deep-copied) entry in place; the entry's
address is appended to the output either way. -/
def maxNHeapLoop (n max_age thld : Int) (nUser nLong : Nat) :
    Heap → List Nat → Nat → Nat → Heap × List Nat
  | h, [], _, _ => (h, [])
  | h, r :: rs, idx, added =>
    let e := h.read r
    if e.role ≠ "user" then
      let p := maxNHeapLoop n max_age thld nUser nLong h rs idx added
      (p.1, r :: p.2)
    else if e.is_demo then
      let p := maxNHeapLoop n max_age thld nUser nLong h rs idx added
      (p.1, r :: p.2)
    else if idx + 1 = 1 then
      let p := maxNHeapLoop n max_age thld nUser nLong h rs (idx + 1) added
      (p.1, r :: p.2)
    else if ((nLong : Int) - (added : Int) > n ∨ (nUser : Int) - ((idx : Int) + 1) > max_age)
        ∧ (e.content.length : Int) > thld then
      let h1 := h.store r (stripObservation e)
      let p := maxNHeapLoop n max_age thld nUser nLong h1 rs (idx + 1) added
      (p.1, r :: p.2)
    else
      let p := maxNHeapLoop n max_age thld nUser nLong h rs (idx + 1) (added + 1)
      (p.1, r :: p.2)

/-- Model of `MaxNObservations.__call__` at the heap level: deepcopy, precompute
the totals over the copies, then run the loop. -/
def maxNHeap (n max_age thld : Int) (h : Heap) (refs : List Nat) : Heap × List Nat :=
  let (h1, refs1) := deepcopyH h refs
  let es := refs1.map h1.read
  maxNHeapLoop n max_age thld ((es.filter isUserMsg).length)
    (((es.filter isUserMsg).filter (isLongMsg thld)).length) h1 refs1 0 0

/-- The loop of `last_n_history` at the heap level: a kept entry's own
address is appended; a stripped entry is re-created as a fresh copy
(`data = entry.copy()`) that is then written in place. -/
def lastNHeapLoop (n : Int) (nUser : Nat) : Heap → List Nat → Nat → Heap × List Nat
  | h, [], _ => (h, [])
  | h, r :: rs, idx =>
    let e := h.read r
    if e.role ≠ "user" then
      let p := lastNHeapLoop n nUser h rs idx
      (p.1, r :: p.2)
    else if e.is_demo then
      let p := lastNHeapLoop n nUser h rs idx
      (p.1, r :: p.2)
    else if idx + 1 = 1 ∨
        ((nUser : Int) - n + 1 ≤ (idx : Int) + 1 ∧ (idx : Int) + 1 ≤ (nUser : Int)) then
      let p := lastNHeapLoop n nUser h rs (idx + 1)
      (p.1, r :: p.2)
    else
      let (h1, d) := h.alloc e
      let h2 := h1.store d (stripObservation e)
      let p := lastNHeapLoop n nUser h2 rs (idx + 1)
      (p.1, d :: p.2)

/-- Model of `last_n_history` at the heap level; `.error` models the eager
`ValueError`, raised before any heap operation. -/
def lastNHeap (h : Heap) (refs : List Nat) (n : Int) : Heap × Except String (List Nat) :=
  if n ≤ 0 then (h, .error "n must be a positive integer")
  else
    let p := lastNHeapLoop n ((refs.map h.read).filter isUserMsg).length h refs 0
    (p.1, .ok p.2)

/-- The loop of `ClosedWindowHistoryProcessor.__call__` at the heap level:
`data = entry.copy()` allocates a fresh dict, which is the one mutated
when a stale window is collapsed and the one appended on the
match-bearing paths. -/
def cwHeapLoop : Heap → List Nat → List (List Char) → Heap × List Nat
  | h, [], _ => (h, [])
  | h, r :: rs, w =>
    let e := h.read r
    if e.role ≠ "user" then
      let p := cwHeapLoop h rs w
      (p.1, r :: p.2)
    else if e.is_demo then
      let p := cwHeapLoop h rs w
      (p.1, r :: p.2)
    else
      match numberedSpans e.content with
      | [] =>
        let (h1, d) := h.alloc e
        let p := cwHeapLoop h1 rs w
        (p.1, d :: p.2)
      | _ :: _ =>
        match fileSearchChars e.content with
        | none => cwHeapLoop h rs w
        | some f =>
          let (h1, d) := h.alloc e
          let h2 := if f ∈ w then h1.store d { e with content := collapseContent e.content }
                    else h1
          let p := cwHeapLoop h2 rs (insertFile f w)
          (p.1, d :: p.2)

/-- Model of `ClosedWindowHistoryProcessor.__call__` at the heap level. -/
def cwHeap (h : Heap) (refs : List Nat) : Heap × List Nat :=
  let p := cwHeapLoop h refs.reverse []
  (p.1, p.2.reverse)

/-- Model of `Max5ObservationsNoFE.__call__` at the heap level. -/
def max5NoFEHeap (h : Heap) (refs : List Nat) : Heap × Option (List Nat) :=
  match sfeHeap h refs with
  | (h1, none) => (h1, none)
  | (h1, some refs1) =>
    let p := maxNHeap 5 10 200 h1 refs1
    (p.1, some p.2)

/-- Model of `Last5ObservationsNoFE.__call__` at the heap level. -/
def last5NoFEHeap (h : Heap) (refs : List Nat) : Heap × Option (List Nat) :=
  match sfeHeap h refs with
  | (h1, none) => (h1, none)
  | (h1, some refs1) =>
    match lastNHeap h1 refs1 5 with
    | (h2, .error _) => (h2, none)
    | (h2, .ok out) => (h2, some out)

example : ("ab".data = ['a', 'b']) := by decide
example : hasInfixChars (chars "bc") (chars "abcd") = true := by decide
example : hasInfixChars failedEditMarker failedEditPlaceholder = false := by decide
example : stripFailedEditsCall [] = none := rfl
example : lineCount (chars "a\nb") = 2 := by decide
example : oldOutputOmitted 1 = chars "Old output omitted (1 lines)" := by decide

/-- Model of `test_only_n_outputs`: `MaxNObservations(n=2, max_age=5,
long_output_char_thld=4)` on `HISTORY_2`. -/
example : maxNCall 2 5 4 history2 =
    [sysE "Welcome to the SWE-Agent!", demoE "This is a demo message",
     uE "1 VERY LONG", astE "VERY LONG", uE "3", uE "Old output omitted (1 lines)", uE "5",
     uE "Old output omitted (1 lines)", uE "7", uE "8 VERY LONG", uE "9", uE "10 VERY LONG"] := by
  decide

/-- Model of `test_last_n_observations`: `LastNObservations(n=5)` on `HISTORY_1`. -/
example : lastNHistory history1 5 =
    .ok [sysE "Welcome to the SWE-Agent!", demoE "This is a demo message",
         uE "1", uE "Old output omitted (1 lines)", uE "Old output omitted (1 lines)",
         uE "Old output omitted (1 lines)", uE "Old output omitted (1 lines)",
         uE "6", uE "7", uE "8", uE "9", uE "10"] := by
  rfl

example : fileSearchChars (chars "[File: a.py (10 lines total)]") = some (chars "a.py") := by
  decide

example : numberedSpans (chars "head\n1:a\n2:b\ntail") = [(5, 9), (9, 13)] := by decide

example : collapseContent (chars "head\n1:a\n2:b\ntail") =
    chars "head\nOutdated window with 2 lines omitted...\ntail" := by decide

example : maxNCall 1 100 5 cex2H = cex2H := by decide

example : maxNClaimed 1 100 5 cex2H =
    [uE "a", uE "b", uE "Old output omitted (1 lines)",
     uE "Old output omitted (1 lines)"] := by decide

-- Helper lemmas.

/-- The failed-edit marker does not occur in the failed-edit placeholder. -/
theorem marker_not_in_placeholder :
    hasInfixChars failedEditMarker failedEditPlaceholder = false := by decide

/-- Processing an entry twice with the failed-edit rewrite is the same as
processing it once: the placeholder no longer contains the marker. -/
theorem processFE_idem (e : Entry) : processFE (processFE e) = processFE e := by
  by_cases hFE : isFailedEdit e = true
  · have hrole : e.role = "user" := by
      by_contra hr
      simp [isFailedEdit, hr] at hFE
    have hdemo : e.demo = false := by
      by_cases hd : e.demo = true
      · simp [isFailedEdit, hrole, hd] at hFE
      · simpa using hd
    have h2 : isFailedEdit { e with content := failedEditPlaceholder } = false := by
      simp [isFailedEdit, hrole, hdemo, marker_not_in_placeholder]
    simp [processFE, hFE, h2]
  · have hFE' : isFailedEdit e = false := by simpa using hFE
    simp [processFE, hFE']

-- Claim theorems.

/-- Claim C1 (code bug evaluation): on a one-entry history whose single
user entry has a numbered-line match but no file header of the form
"[File: path (N lines total)]", the stale-view collapsing strategy
returns the empty history — the entry is dropped, not passed through
unchanged, so neither the length invariance nor the pass-through part of
the claim holds on the code. -/
theorem C1_closed_window_drops_entry :
    closedWindowCall [uE "1:x"] = [] := by decide

/-- Claim C2 (counterexample): the count/age-bounded suppression strategy
as the claim words it (a kept entry counts against the n budget only if it
is long) disagrees with the source on a concrete history: with n = 1,
max_age = 100, threshold 5 on two short outputs followed by two long
ones, the source keeps everything (each kept entry, long or short,
consumed the budget) while the claim's algorithm suppresses the first
long output. -/
theorem C2_counterexample :
    maxNClaimed 1 100 5 cex2H ≠ maxNCall 1 100 5 cex2H := by decide

/-- Claim C6: the failed-edit suppression strategy is idempotent — on any
history it does not raise on, applying it to its own output returns that
output unchanged. -/
theorem C6_sfe_idempotent (H out : List Entry) (h : stripFailedEditsCall H = some out) :
    stripFailedEditsCall out = some out := by
  unfold stripFailedEditsCall at h
  match hl : H.getLast? with
  | none => rw [hl] at h; exact absurd h (by simp)
  | some last =>
    rw [hl] at h
    have hout : H.dropLast.map processFE ++ [last] = out := by
      injection h
    subst hout
    unfold stripFailedEditsCall
    rw [List.getLast?_concat, List.dropLast_concat, List.map_map]
    have hcomp : processFE ∘ processFE = processFE := funext processFE_idem
    rw [hcomp]

/-- Claim C6 witness: a concrete already-processed two-entry history is a
fixed point of the failed-edit suppression strategy. -/
theorem C6_witness :
    stripFailedEditsCall [uE "Output of failed edit omitted.", uE "ok"] =
      some [uE "Output of failed edit omitted.", uE "ok"] :=
  C6_sfe_idempotent [uE "Your proposed edit has introduced new syntax error", uE "ok"]
    [uE "Output of failed edit omitted.", uE "ok"] (by decide)

/-- Claim C8: the index-window suppression strategy rejects every
non-positive n with the invalid-argument error, before producing any
output. -/
theorem C8_last_n_nonpositive (H : List Entry) (n : Int) (h : n ≤ 0) :
    lastNHistory H n = .error "n must be a positive integer" := by
  simp [lastNHistory, h]

/-- Claim C8 witness: n = 0 on the twelve-entry test history raises the
invalid-argument error instead of suppressing everything. -/
theorem C8_witness :
    (0 : Int) ≤ 0 ∧ lastNHistory history1 0 = .error "n must be a positive integer" :=
  ⟨by decide, C8_last_n_nonpositive history1 0 (by decide)⟩

/-- Claim C10: applying the failed-edit suppression strategy to the empty
history raises (the unconditional re-append of the last entry indexes an
empty list), modelled by the none result; it does not return an empty
history. -/
theorem C10_sfe_empty_raises : stripFailedEditsCall [] = none := rfl

/-- The loop of the count/age-bounded strategy equals applying the
suppression flags computed from the projected non-demo user contents:
the mixed-role walk only reads the role/demo flags of non-user entries,
so the decision sequence is a function of the user contents alone. -/
theorem maxNAux_applyFlags (n ma thld : Int) (nU nL : Nat) (L : List Entry) :
    ∀ idx added : Nat,
    (maxNAux n ma thld nU nL L idx added).1
      = applyFlags L
          (suppFlagsAll n ma thld nU nL ((L.filter isUserMsg).map Entry.content) idx added) := by
  induction L with
  | nil => intro idx added; rfl
  | cons e rest ih =>
    intro idx added
    by_cases hrole : e.role = "user"
    · by_cases hdemo : e.is_demo = true
      · have hu : isUserMsg e = false := by simp [isUserMsg, hdemo]
        simp [maxNAux, hrole, hdemo, List.filter_cons, hu, applyFlags, ih]
      · have hu : isUserMsg e = true := by simp [isUserMsg, hrole, hdemo]
        have hdemo' : e.is_demo = false := by simpa using hdemo
        by_cases hfirst : idx + 1 = 1
        · simp [maxNAux, hrole, hdemo', hfirst, List.filter_cons, hu, suppFlagsAll,
            applyFlags, ih]
        · by_cases hcond : ((nL : Int) - (added : Int) > n ∨ (nU : Int) - ((idx : Int) + 1) > ma)
              ∧ (e.content.length : Int) > thld
          · simp [maxNAux, hrole, hdemo', hfirst, hcond, List.filter_cons, hu, suppFlagsAll,
              applyFlags, ih]
          · simp [maxNAux, hrole, hdemo', hfirst, hcond, List.filter_cons, hu, suppFlagsAll,
              applyFlags, ih]
    · have hu : isUserMsg e = false := by simp [isUserMsg, hrole]
      simp [maxNAux, hrole, List.filter_cons, hu, applyFlags, ih]

/-- Applying per-user-entry flags, read positionally: the entry at
position i is rewritten iff it is a non-demo user entry and the flag
at its user index is true. -/
theorem applyFlags_get (L : List Entry) :
    ∀ (flags : List Bool) (i : Nat) (e : Entry), L.get? i = some e →
    (applyFlags L flags).get? i
      = some (if isUserMsg e then
                (if flags.get? ((L.take i).countP isUserMsg) = some true
                 then stripObservation e else e)
              else e) := by
  induction L with
  | nil => intro flags i e hget; simp at hget
  | cons a rest ih =>
    intro flags i e hget
    cases i with
    | zero =>
      simp only [List.get?_cons_zero, Option.some_inj] at hget
      subst hget
      by_cases hu : isUserMsg a = true
      · cases flags with
        | nil => simp [applyFlags, hu]
        | cons b bs => cases b <;> simp [applyFlags, hu]
      · simp [applyFlags, hu]
    | succ j =>
      simp only [List.get?_cons_succ] at hget
      by_cases hu : isUserMsg a = true
      · cases flags with
        | nil =>
          simp only [applyFlags, hu, if_pos, List.get?_cons_succ]
          rw [ih [] j e hget]
          simp
        | cons b bs =>
          simp only [applyFlags, hu, if_pos, List.get?_cons_succ]
          rw [ih bs j e hget]
          simp [List.take_succ_cons, List.countP_cons, hu]
      · simp only [applyFlags, hu]
        simp only [Bool.false_eq_true, if_false, List.get?_cons_succ]
        rw [ih flags j e hget]
        simp [List.take_succ_cons, List.countP_cons, hu]

/-- Positional characterization of the count/age-bounded strategy, used
by several claims below. -/
theorem maxNCall_get (n ma thld : Int) (H : List Entry)
    (i : Nat) (e : Entry) (hget : H.get? i = some e) :
    (maxNCall n ma thld H).get? i
      = some (if isUserMsg e then
                (if (suppFlags n ma thld H).get? (usersBefore H i) = some true
                 then stripObservation e else e)
              else e) := by
  unfold maxNCall suppFlags usersBefore userContents
  rw [maxNAux_applyFlags]
  exact applyFlags_get H _ i e hget

/-- Claim C2 (amended): for the count/age-bounded suppression strategy,
walking H in original order with a 1-based index over non-demo user
entries, the first such entry is kept unchanged; every subsequent one is
suppressed (content replaced by 'Old output omitted (n_lines lines)' with
n_lines the original content's line count) iff its content length strictly
exceeds the threshold AND (the number of long outputs not yet allocated
exceeds n OR its age exceeds max_age) — where, unlike the original claim,
EVERY kept subsequent entry counts against the n budget, long or short
(the not-yet-allocated count is the total number of long user entries
minus the number of subsequent user entries kept so far); non-user roles
and demo entries pass through, and short entries are never suppressed
(the suppression flags, computed from the user contents alone by
suppFlagsAll, are false on short entries). -/
theorem C2_max_n_budget_counts_all_kept (n ma thld : Int) (H : List Entry)
    (i : Nat) (e : Entry) (hget : H.get? i = some e) :
    (maxNCall n ma thld H).get? i
      = some (if isUserMsg e then
                (if (suppFlags n ma thld H).get? (usersBefore H i) = some true
                 then stripObservation e else e)
              else e) :=
  maxNCall_get n ma thld H i e hget

/-- Claim C2 witness: on the test history HISTORY_2 with n=2, max_age=5,
threshold 4, the fourth entry (user content '4 VERY LONG', user index 3)
is suppressed exactly as the amended characterization states. -/
theorem C2_witness :
    (maxNCall 2 5 4 history2).get? 5 = some (uE "Old output omitted (1 lines)") := by
  rw [C2_max_n_budget_counts_all_kept 2 5 4 history2 5 (uE "4 VERY LONG") (by decide)]
  decide

/-- The strip counter of the count/age-bounded loop is antitone in the
budget n, pointwise in the running kept-counter: a larger budget (or a
smaller kept-counter) never strips an entry that the smaller budget
keeps. -/
theorem maxNAux_strips_antitone (ma thld : Int) (nU nL : Nat) (n1 n2 : Int)
    (hn : n1 ≤ n2) (L : List Entry) :
    ∀ idx a1 a2 : Nat, a1 ≤ a2 →
    (maxNAux n2 ma thld nU nL L idx a2).2 ≤ (maxNAux n1 ma thld nU nL L idx a1).2 := by
  induction L with
  | nil => intro idx a1 a2 _; simp [maxNAux]
  | cons e rest ih =>
    intro idx a1 a2 ha
    by_cases hrole : e.role = "user"
    · by_cases hdemo : e.is_demo = true
      · simpa [maxNAux, hrole, hdemo] using ih idx a1 a2 ha
      · have hdemo' : e.is_demo = false := by simpa using hdemo
        by_cases hfirst : idx + 1 = 1
        · simpa [maxNAux, hrole, hdemo', hfirst] using ih (idx + 1) a1 a2 ha
        · by_cases hc2 : ((nL : Int) - (a2 : Int) > n2 ∨ (nU : Int) - ((idx : Int) + 1) > ma)
              ∧ (e.content.length : Int) > thld
          · have hc1 : ((nL : Int) - (a1 : Int) > n1 ∨ (nU : Int) - ((idx : Int) + 1) > ma)
                ∧ (e.content.length : Int) > thld := by
              refine ⟨?_, hc2.2⟩
              rcases hc2.1 with hbud | hage
              · left; omega
              · right; exact hage
            have hrec := ih (idx + 1) a1 a2 ha
            simp only [maxNAux, hrole, hdemo', hfirst]
            simp [hc1, hc2]
            omega
          · by_cases hc1 : ((nL : Int) - (a1 : Int) > n1 ∨ (nU : Int) - ((idx : Int) + 1) > ma)
                ∧ (e.content.length : Int) > thld
            · have hrec := ih (idx + 1) a1 (a2 + 1) (by omega)
              have hd2 : ¬((nL : Int) - (a2 : Int) > n2 ∨ (nU : Int) - ((idx : Int) + 1) > ma) :=
                fun hd => hc2 ⟨hd, hc1.2⟩
              simp only [maxNAux, hrole, hdemo', hfirst]
              simp [hc1, hd2]
              omega
            · simpa [maxNAux, hrole, hdemo', hfirst, hc1, hc2] using
                ih (idx + 1) (a1 + 1) (a2 + 1) (by omega)
    · simpa [maxNAux, hrole] using ih idx a1 a2 ha

/-- Claim C7: for the count/age-bounded strategy with fixed max_age and
threshold, increasing the budget n never increases the number of
suppressed entries. -/
theorem C7_budget_antitone (ma thld : Int) (H : List Entry) (n1 n2 : Int) (hn : n1 ≤ n2) :
    maxNStrips n2 ma thld H ≤ maxNStrips n1 ma thld H := by
  unfold maxNStrips
  exact maxNAux_strips_antitone ma thld (nUserMsgs H) (nLongUserMsgs thld H) n1 n2 hn H 0 0 0
    (Nat.le_refl 0)

/-- Claim C7 witness: on HISTORY_2 with max_age 5 and threshold 4,
raising the budget from 1 to 2 does not increase the suppression count. -/
theorem C7_witness :
    (1 : Int) ≤ 2 ∧ maxNStrips 2 5 4 history2 ≤ maxNStrips 1 5 4 history2 :=
  ⟨by decide, C7_budget_antitone 5 4 history2 1 2 (by decide)⟩

/-- The loop of last_n_history equals the claim-worded per-entry rule
(keep iff first or among the last n), provided the running index plus the
number of user entries still to come does not exceed the precomputed
total — which holds for the real initial call, and makes the code's
upper-range bound (user index at most the total) redundant. -/
theorem lastNAux_eq_spec (n : Int) (nU : Nat) (L : List Entry) :
    ∀ idx : Nat, idx + L.countP isUserMsg ≤ nU →
    lastNAux n nU L idx = lastNSpecAux n nU L idx := by
  induction L with
  | nil => intro idx _; rfl
  | cons e rest ih =>
    intro idx hinv
    by_cases hrole : e.role = "user"
    · by_cases hdemo : e.is_demo = true
      · have hu : isUserMsg e = false := by simp [isUserMsg, hdemo]
        have hinv' : idx + rest.countP isUserMsg ≤ nU := by
          simp [List.countP_cons, hu] at hinv
          omega
        simp [lastNAux, lastNSpecAux, hrole, hdemo, hu, ih idx hinv']
      · have hdemo' : e.is_demo = false := by simpa using hdemo
        have hu : isUserMsg e = true := by simp [isUserMsg, hrole, hdemo']
        have hcnt : (e :: rest).countP isUserMsg = rest.countP isUserMsg + 1 := by
          simp [List.countP_cons, hu]
        have hk : idx + 1 ≤ nU := by omega
        have hinv' : (idx + 1) + rest.countP isUserMsg ≤ nU := by omega
        have hPiff : (idx + 1 = 1 ∨
              ((nU : Int) - n + 1 ≤ (idx : Int) + 1 ∧ (idx : Int) + 1 ≤ (nU : Int)))
            ↔ (idx + 1 = 1 ∨ (nU : Int) - ((idx : Int) + 1) < n) := by
          constructor
          · rintro (h1 | ⟨h2, h3⟩)
            · exact Or.inl h1
            · right; omega
          · rintro (h1 | h2)
            · exact Or.inl h1
            · exact Or.inr ⟨by omega, by omega⟩
        simp only [lastNAux, lastNSpecAux]
        simp only [hPiff]
        by_cases hd : idx = 0 ∨ (nU : Int) - ((idx : Int) + 1) < n
        · simp [hrole, hdemo', hu, hd, ih (idx + 1) hinv']
        · simp [hrole, hdemo', hu, hd, ih (idx + 1) hinv']
    · have hu : isUserMsg e = false := by simp [isUserMsg, hrole]
      have hinv' : idx + rest.countP isUserMsg ≤ nU := by
        simp [List.countP_cons, hu] at hinv
        omega
      simp [lastNAux, lastNSpecAux, hrole, hu, ih idx hinv']

/-- Claim C5: for positive n, the index-window suppression strategy keeps
the first non-demo user entry and the last n non-demo user entries
verbatim, replaces every other non-demo user entry's content by the
line-count placeholder, and passes demo entries and non-user roles
through (the per-entry rule lastNSpec); in particular, on the 12-entry
test history (1 system, 1 demo, 10 user entries) with n = 5, the first
user entry and the last five are verbatim and user entries 2 to 5 each
become 'Old output omitted (1 lines)'. -/
theorem C5_last_n_window :
    (∀ (H : List Entry) (n : Int), 0 < n → lastNHistory H n = .ok (lastNSpec H n))
    ∧ lastNObservationsCall 5 history1 =
        .ok [sysE "Welcome to the SWE-Agent!", demoE "This is a demo message",
             uE "1", uE "Old output omitted (1 lines)", uE "Old output omitted (1 lines)",
             uE "Old output omitted (1 lines)", uE "Old output omitted (1 lines)",
             uE "6", uE "7", uE "8", uE "9", uE "10"] := by
  constructor
  · intro H n hn
    have hle : ¬n ≤ 0 := by omega
    unfold lastNHistory lastNSpec
    rw [if_neg hle]
    congr 1
    apply lastNAux_eq_spec
    have hcp : H.countP isUserMsg = nUserMsgs H := by
      simp [nUserMsgs, userMsgs, List.countP_eq_length_filter]
    omega
  · rfl

/-- Claim C5 witness: the general part instantiated on HISTORY_2 with
n = 2. -/
theorem C5_witness :
    (0 : Int) < 2 ∧ lastNHistory history2 2 = .ok (lastNSpec history2 2) :=
  ⟨by decide, C5_last_n_window.1 history2 2 (by decide)⟩

/-- Splitting a list at a position obtained by get?. -/
theorem list_split_at_get {α : Type} (l : List α) (i : Nat) (x : α)
    (h : l.get? i = some x) : l = l.take i ++ x :: l.drop (i + 1) := by
  have hi : i < l.length := by
    by_contra hlt
    have hnone : l.get? i = none := List.get?_eq_none.mpr (by omega)
    rw [hnone] at h
    exact absurd h (by simp)
  have hx : l[i] = x := by
    have h1 : l.get? i = some l[i] := by
      simp [List.get?_eq_getElem?, List.getElem?_eq_getElem hi]
    rw [h1] at h
    exact (Option.some_inj.mp h)
  conv_lhs => rw [← List.take_append_drop i l]
  congr 1
  rw [List.drop_eq_getElem_cons hi, hx]

/-- One step of the stale-view loop: the emitted entries and the updated
seen set factor through cwStep and cwState. -/
theorem cwAux_cons (e : Entry) (rest : List Entry) (w : List (List Char)) :
    cwAux (e :: rest) w = cwStep e w ++ cwAux rest (cwState e w) := by
  by_cases hrole : e.role = "user"
  · by_cases hdemo : e.is_demo = true
    · simp [cwAux, cwStep, cwState, cwOut, isDropped, rendersFile, hrole, hdemo]
    · have hdemo' : e.is_demo = false := by simpa using hdemo
      match hspan : numberedSpans e.content with
      | [] => simp [cwAux, cwStep, cwState, cwOut, isDropped, rendersFile, hrole, hdemo',
          hspan]
      | m :: ms =>
        match hfs : fileSearchChars e.content with
        | none => simp [cwAux, cwStep, cwState, cwOut, isDropped, rendersFile, hrole,
            hdemo', hspan, hfs]
        | some f =>
          simp [cwAux, cwStep, cwState, cwOut, isDropped, rendersFile, hrole,
            hdemo', hspan, hfs]
          split <;> rfl
  · simp [cwAux, cwStep, cwState, cwOut, isDropped, rendersFile, hrole]

/-- The stale-view loop over a concatenation: the second part runs with
the seen set accumulated over the first part. -/
theorem cwAux_append (A : List Entry) :
    ∀ (B : List Entry) (w : List (List Char)),
    cwAux (A ++ B) w = cwAux A w ++ cwAux B (cwSeenList A w) := by
  induction A with
  | nil => intro B w; simp [cwAux, cwSeenList]
  | cons a A' ih =>
    intro B w
    rw [List.cons_append, cwAux_cons, cwAux_cons, ih B (cwState a w), List.append_assoc]
    rfl

/-- The stale-view loop emits one entry per non-dropped input entry. -/
theorem cwAux_length (L : List Entry) :
    ∀ w : List (List Char),
    (cwAux L w).length = (L.filter (fun e => !isDropped e)).length := by
  induction L with
  | nil => intro w; rfl
  | cons e rest ih =>
    intro w
    rw [cwAux_cons]
    by_cases hd : isDropped e = true
    · simp [cwStep, hd, List.filter_cons, ih]
    · simp [cwStep, hd, List.filter_cons, ih]

/-- Membership in the insert-if-absent set update. -/
theorem mem_insertFile (f g : List Char) (w : List (List Char)) :
    f ∈ insertFile g w ↔ f = g ∨ f ∈ w := by
  unfold insertFile
  by_cases hg : g ∈ w
  · simp only [if_pos hg]
    constructor
    · exact Or.inr
    · rintro (rfl | hf)
      · exact hg
      · exact hf
  · simp [if_neg hg]

/-- The seen set over a list contains exactly the initial files and the
files rendered by the list's entries. -/
theorem mem_cwSeenList (f : List Char) (L : List Entry) :
    ∀ w : List (List Char),
    f ∈ cwSeenList L w ↔ f ∈ w ∨ f ∈ L.filterMap rendersFile := by
  induction L with
  | nil => intro w; simp [cwSeenList]
  | cons e rest ih =>
    intro w
    have hstep : cwSeenList (e :: rest) w = cwSeenList rest (cwState e w) := rfl
    rw [hstep, ih (cwState e w)]
    unfold cwState
    match hr : rendersFile e with
    | none => simp [List.filterMap_cons, hr]
    | some g =>
      simp only [List.filterMap_cons, hr, mem_insertFile, List.mem_cons]
      tauto


/-- Positional characterization of the stale-view strategy: a non-dropped
entry at position i appears at position keptBefore H i of the output,
transformed by cwOut under the seen set accumulated over the
chronologically later entries (which the reversed scan processes first). -/
theorem cwCall_get (H : List Entry) (i : Nat) (e : Entry)
    (hget : H.get? i = some e) (hnd : isDropped e = false) :
    (closedWindowCall H).get? (keptBefore H i)
      = some (cwOut e (cwSeenList ((H.drop (i + 1)).reverse) [])) := by
  have hsplit : H = H.take i ++ e :: H.drop (i + 1) := list_split_at_get H i e hget
  have hrev : H.reverse = (H.drop (i + 1)).reverse ++ e :: (H.take i).reverse := by
    conv_lhs => rw [hsplit]
    simp
  have hcw : cwAux H.reverse []
      = cwAux ((H.drop (i + 1)).reverse) []
        ++ (cwStep e (cwSeenList ((H.drop (i + 1)).reverse) [])
            ++ cwAux ((H.take i).reverse)
                 (cwState e (cwSeenList ((H.drop (i + 1)).reverse) []))) := by
    rw [hrev, cwAux_append, cwAux_cons]
  have hstep : cwStep e (cwSeenList ((H.drop (i + 1)).reverse) [])
      = [cwOut e (cwSeenList ((H.drop (i + 1)).reverse) [])] := by
    simp [cwStep, hnd]
  have hlen : ((cwAux ((H.take i).reverse)
      (cwState e (cwSeenList ((H.drop (i + 1)).reverse) [])))).reverse.length
      = keptBefore H i := by
    rw [List.length_reverse, cwAux_length]
    rw [List.filter_reverse, List.length_reverse]
    rw [keptBefore, List.countP_eq_length_filter]
  unfold closedWindowCall
  rw [hcw, hstep]
  rw [List.reverse_append, List.reverse_append, List.append_assoc]
  rw [List.get?_append_right (Nat.le_of_eq hlen)]
  simp [hlen]

/-- Claim C4: for the stale-view collapsing strategy, a non-demo user
entry at position i with at least one numbered-line match and a file
header naming f has, at its position in the output (its original
position minus the entries dropped before it, so the result stays in
original chronological order), exactly the span from the start of its
first numbered-line match to the end of its last numbered-line match
replaced by the single line 'Outdated window with k lines omitted...\n'
(k the number of matches, text before and after preserved verbatim) iff
a chronologically later entry renders the same file f; the
chronologically last rendering of each file is left untouched. -/
theorem C4_stale_view_collapse (H : List Entry) (i : Nat) (e : Entry) (f : List Char)
    (hget : H.get? i = some e) (hrole : e.role = "user") (hdemo : e.is_demo = false)
    (hspan : numberedSpans e.content ≠ []) (hfile : fileSearchChars e.content = some f) :
    (closedWindowCall H).get? (keptBefore H i)
      = some (if f ∈ laterFiles H i
              then { e with content := collapseContent e.content } else e)
    ∧ collapseContent e.content
        = e.content.take ((numberedSpans e.content).headD (0, 0)).1
          ++ outdatedWindow (numberedSpans e.content).length
          ++ e.content.drop ((numberedSpans e.content).getLastD (0, 0)).2 := by
  have hnd : isDropped e = false := by simp [isDropped, hfile]
  constructor
  · rw [cwCall_get H i e hget hnd]
    have hmem : (f ∈ cwSeenList ((H.drop (i + 1)).reverse) []) ↔ f ∈ laterFiles H i := by
      rw [mem_cwSeenList]
      simp [laterFiles, List.mem_filterMap]
    rcases hsp : numberedSpans e.content with _ | ⟨m, ms⟩
    · exact absurd hsp hspan
    · simp only [cwOut, hrole, hdemo, hsp, hfile]
      simp [hmem]
  · rcases hsp : numberedSpans e.content with _ | ⟨m, ms⟩
    · exact absurd hsp hspan
    · simp [collapseContent, hsp]

/-- Claim C4 witness: two renderings of a.py; the earlier one has its
numbered window replaced by the summary line, with the header text before
the span preserved verbatim. -/
theorem C4_witness :
    (closedWindowCall
        [uE "[File: a.py (2 lines total)]\n1:x\n",
         uE "[File: a.py (2 lines total)]\n1:y\n"]).get?
      (keptBefore
        [uE "[File: a.py (2 lines total)]\n1:x\n",
         uE "[File: a.py (2 lines total)]\n1:y\n"] 0)
      = some (uE "[File: a.py (2 lines total)]\nOutdated window with 1 lines omitted...\n") :=
  (C4_stale_view_collapse
    [uE "[File: a.py (2 lines total)]\n1:x\n", uE "[File: a.py (2 lines total)]\n1:y\n"]
    0 (uE "[File: a.py (2 lines total)]\n1:x\n") (chars "a.py")
    (by decide) (by rfl) (by rfl) (by decide) (by decide)).1

/-- The failed-edit rewrite touches only the content, so the user/demo
classification is unchanged. -/
theorem isUserMsg_processFE (e : Entry) : isUserMsg (processFE e) = isUserMsg e := by
  unfold processFE
  split <;> rfl

/-- An entry with a non-user role, or without the marker in its content,
is never classified as a failed edit. -/
theorem isFailedEdit_eq_false_of (e : Entry)
    (h : e.role ≠ "user" ∨ hasInfixChars failedEditMarker e.content = false) :
    isFailedEdit e = false := by
  unfold isFailedEdit
  rcases h with h | h
  · simp [h]
  · by_cases hr : e.role ≠ "user"
    · simp [hr]
    · by_cases hd : e.demo <;> simp [hr, hd, h]

/-- Positional characterization of failed-edit suppression: every entry
but the last is processed by processFE, the last is kept. -/
theorem sfe_get (H out : List Entry) (hsfe : stripFailedEditsCall H = some out)
    (j : Nat) (e : Entry) (hget : H.get? j = some e) :
    out.get? j = some (if j + 1 = H.length then e else processFE e) := by
  unfold stripFailedEditsCall at hsfe
  match hl : H.getLast? with
  | none => rw [hl] at hsfe; exact absurd hsfe (by simp)
  | some last =>
    rw [hl] at hsfe
    have hout : H.dropLast.map processFE ++ [last] = out := by injection hsfe
    subst hout
    have hjlen : j < H.length := by
      by_contra hc
      have hn : H.get? j = none := List.get?_eq_none.mpr (by omega)
      rw [hn] at hget
      exact absurd hget (by simp)
    by_cases hj : j + 1 = H.length
    · have hmaplen : (H.dropLast.map processFE).length = H.length - 1 := by
        simp [List.length_dropLast]
      rw [List.get?_append_right (by omega)]
      have hz : j - (H.dropLast.map processFE).length = 0 := by omega
      rw [hz]
      have hlast : H.get? (H.length - 1) = some last := by
        rw [← List.getLast?_eq_get?]
        exact hl
      have hel : e = last := by
        have hj' : j = H.length - 1 := by omega
        rw [hj'] at hget
        rw [hget] at hlast
        exact Option.some_inj.mp hlast
      simp [hj, hel]
    · have hmaplen : j < (H.dropLast.map processFE).length := by
        simp [List.length_dropLast]
        omega
      rw [List.get?_append hmaplen]
      rw [List.get?_map]
      have hdl : H.dropLast.get? j = some e := by
        rw [List.dropLast_eq_take]
        rw [List.get?_take (by omega)]
        exact hget
      rw [hdl]
      simp [hj]

/-- Failed-edit suppression preserves the user/demo classification at
every position, hence all user-index counts. -/
theorem sfe_countP_take (H out : List Entry) (hsfe : stripFailedEditsCall H = some out)
    (j : Nat) : (out.take j).countP isUserMsg = (H.take j).countP isUserMsg := by
  unfold stripFailedEditsCall at hsfe
  match hl : H.getLast? with
  | none => rw [hl] at hsfe; exact absurd hsfe (by simp)
  | some last =>
    rw [hl] at hsfe
    have hout : H.dropLast.map processFE ++ [last] = out := by injection hsfe
    subst hout
    have hH : H.dropLast ++ [last] = H := by
      have hne : H ≠ [] := by
        intro hc
        rw [hc] at hl
        exact absurd hl (by simp)
      have hgl : H.getLast hne = last := by
        have := List.getLast?_eq_getLast H hne
        rw [hl] at this
        exact (Option.some_inj.mp this).symm
      rw [← hgl]
      exact List.dropLast_append_getLast hne
    conv_rhs => rw [← hH]
    rw [List.take_append_eq_append_take, List.take_append_eq_append_take]
    rw [List.countP_append, List.countP_append]
    rw [← List.map_take, List.countP_map]
    rw [List.length_map]
    congr 1
    apply List.countP_congr
    intro a _
    simp [Function.comp, isUserMsg_processFE]

/-- The first suppression flag of the count/age-bounded strategy is never
true: the first non-demo user entry is always kept. -/
theorem suppFlags_zero (n ma thld : Int) (H : List Entry) :
    (suppFlags n ma thld H).get? 0 ≠ some true := by
  unfold suppFlags
  cases hc : userContents H with
  | nil => simp [suppFlagsAll]
  | cons c cs => simp [suppFlagsAll]

/-- The index-window rule keeps non-user/demo entries everywhere and the
first non-demo user entry. -/
theorem lastNSpecAux_get_preserved (n : Int) (nU : Nat) (L : List Entry) :
    ∀ (idx j : Nat) (e : Entry), L.get? j = some e →
    (isUserMsg e = false ∨ (idx = 0 ∧ (L.take j).countP isUserMsg = 0)) →
    (lastNSpecAux n nU L idx).get? j = some e := by
  induction L with
  | nil => intro idx j e hget _; simp at hget
  | cons a rest ih =>
    intro idx j e hget hpres
    cases j with
    | zero =>
      simp only [List.get?_cons_zero, Option.some_inj] at hget
      subst hget
      rcases hpres with hp | ⟨hidx, _⟩
      · simp [lastNSpecAux, hp]
      · subst hidx
        by_cases hu : isUserMsg a = true
        · simp [lastNSpecAux, hu]
        · simp [lastNSpecAux, hu]
    | succ k =>
      simp only [List.get?_cons_succ] at hget
      by_cases hu : isUserMsg a = true
      · rcases hpres with hp | ⟨hidx, hcnt⟩
        · have hrec := ih (idx + 1) k e hget (Or.inl hp)
          simp only [lastNSpecAux, hu, if_true, List.get?_cons_succ]
          exact hrec
        · exfalso
          rw [List.take_succ_cons, List.countP_cons, if_pos hu] at hcnt
          omega
      · have hpres' : isUserMsg e = false
            ∨ (idx = 0 ∧ (rest.take k).countP isUserMsg = 0) := by
          rcases hpres with hp | ⟨hidx, hcnt⟩
          · exact Or.inl hp
          · refine Or.inr ⟨hidx, ?_⟩
            rw [List.take_succ_cons, List.countP_cons, if_neg hu] at hcnt
            omega
        have hrec := ih idx k e hget hpres'
        have hu' : isUserMsg a = false := by simpa using hu
        simp only [lastNSpecAux, hu', Bool.false_eq_true, if_false, List.get?_cons_succ]
        exact hrec

/-- When no entry is dropped, output positions of the stale-view strategy
coincide with input positions. -/
theorem keptBefore_eq_of_noDrop (H : List Entry) (hnd : ∀ x ∈ H, isDropped x = false)
    (i : Nat) (hi : i ≤ H.length) : keptBefore H i = i := by
  unfold keptBefore
  have h1 : ∀ x ∈ H.take i, (fun e => !isDropped e) x = true := by
    intro x hx
    have hx2 := hnd x (List.take_subset i H hx)
    simp [hx2]
  rw [List.countP_eq_length.mpr h1]
  simp [List.length_take, Nat.min_eq_left hi]

/-- The stale-view strategy leaves non-user, demo, and match-free entries
unchanged. -/
theorem cwOut_eq_self (e : Entry) (w : List (List Char))
    (h : e.role ≠ "user" ∨ e.is_demo = true ∨ numberedSpans e.content = []) :
    cwOut e w = e := by
  unfold cwOut
  rcases h with h | h | h
  · simp [h]
  · by_cases hr : e.role ≠ "user"
    · simp [hr]
    · simp [hr, h]
  · by_cases hr : e.role ≠ "user"
    · simp [hr]
    · by_cases hd : e.is_demo <;> simp [hr, hd, h]

/-- Inversion for a successful last_n_history call. -/
theorem lastN_ok_inv (H : List Entry) (n : Int) (out : List Entry)
    (h : lastNHistory H n = .ok out) :
    0 < n ∧ out = lastNAux n (nUserMsgs H) H 0 := by
  unfold lastNHistory at h
  by_cases hn : n ≤ 0
  · simp [hn] at h
  · refine ⟨by omega, ?_⟩
    simp [hn] at h
    exact h.symm

/-- Claim C3 (counterexample): the first user-role non-demo entry is NOT
always byte-identical: if the task-statement entry itself contains the
failed-edit marker, failed-edit suppression rewrites it in place. -/
theorem C3_counterexample :
    stripFailedEditsCall
        [uE "Your proposed edit has introduced new syntax error", uE "x"]
      = some [uE "Output of failed edit omitted.", uE "x"]
    ∧ uE "Output of failed edit omitted."
        ≠ uE "Your proposed edit has introduced new syntax error" := by
  constructor
  · decide
  · decide

/-- Claim C3 (amended): for every strategy (identity, failed-edit
suppression, count/age-bounded, index-window, stale-view, and the two
composites) and every history H it does not raise on, in which no entry
is dropped by the stale-view strategy (every non-demo user entry with a
numbered-line match has a file header): every entry whose role is not
'user' is byte-identical at its position in S(H); every demo-flagged
(is_demo) entry whose content does not contain the failed-edit marker is
byte-identical at its position; and the first user-role non-demo entry is
byte-identical at its position provided its content contains neither the
failed-edit marker nor any numbered-line match. (The original claim
fails because failed-edit suppression has no first-entry exemption and
reads the 'demo' key instead of 'is_demo', and the stale-view strategy
can drop or collapse any entry including the first.) -/
theorem C3_protected_entries (H : List Entry)
    (hnd : ∀ x ∈ H, isDropped x = false)
    (i : Nat) (e : Entry) (hget : H.get? i = some e)
    (hprot : e.role ≠ "user"
      ∨ (e.is_demo = true ∧ hasInfixChars failedEditMarker e.content = false)
      ∨ (isUserMsg e = true ∧ usersBefore H i = 0
          ∧ hasInfixChars failedEditMarker e.content = false
          ∧ numberedSpans e.content = [])) :
    (defaultCall H).get? i = some e
    ∧ (∀ out, stripFailedEditsCall H = some out → out.get? i = some e)
    ∧ (∀ n ma thld : Int, (maxNCall n ma thld H).get? i = some e)
    ∧ (∀ (n : Int) (out : List Entry), lastNHistory H n = .ok out → out.get? i = some e)
    ∧ (closedWindowCall H).get? i = some e
    ∧ (∀ out, max5NoFECall H = some out → out.get? i = some e)
    ∧ (∀ out, last5NoFECall H = some out → out.get? i = some e) := by
  have hudata : isUserMsg e = false
      ∨ (isUserMsg e = true ∧ usersBefore H i = 0 ∧ numberedSpans e.content = []) := by
    rcases hprot with h | ⟨h, _⟩ | ⟨h1, h2, _, h4⟩
    · left; simp [isUserMsg, h]
    · left; simp [isUserMsg, h]
    · right; exact ⟨h1, h2, h4⟩
  have hmark : e.role ≠ "user" ∨ hasInfixChars failedEditMarker e.content = false := by
    rcases hprot with h | ⟨_, h⟩ | ⟨_, _, h, _⟩
    · exact Or.inl h
    · exact Or.inr h
    · exact Or.inr h
  have hcwP : e.role ≠ "user" ∨ e.is_demo = true ∨ numberedSpans e.content = [] := by
    rcases hprot with h | ⟨h, _⟩ | ⟨_, _, _, h⟩
    · exact Or.inl h
    · exact Or.inr (Or.inl h)
    · exact Or.inr (Or.inr h)
  have hi : i < H.length := by
    by_contra hc
    have hn : H.get? i = none := List.get?_eq_none.mpr (by omega)
    rw [hn] at hget
    exact absurd hget (by simp)
  have hfe : isFailedEdit e = false := isFailedEdit_eq_false_of e hmark
  have hpfe : processFE e = e := by simp [processFE, hfe]
  have hSFE : ∀ out, stripFailedEditsCall H = some out → out.get? i = some e := by
    intro out hout
    rw [sfe_get H out hout i e hget]
    by_cases hj : i + 1 = H.length <;> simp [hj, hpfe]
  have hMaxN : ∀ (n ma thld : Int) (M : List Entry), M.get? i = some e →
      usersBefore M i = usersBefore H i → (maxNCall n ma thld M).get? i = some e := by
    intro n ma thld M hgetM hub
    rw [maxNCall_get n ma thld M i e hgetM]
    rcases hudata with hu | ⟨hu, hub0, _⟩
    · simp [hu]
    · rw [hub, hub0, if_pos hu, if_neg (suppFlags_zero n ma thld M)]
  have hLastN : ∀ (n : Int) (M : List Entry), M.get? i = some e →
      usersBefore M i = usersBefore H i →
      (lastNAux n (nUserMsgs M) M 0).get? i = some e := by
    intro n M hgetM hub
    have hinv : 0 + M.countP isUserMsg ≤ nUserMsgs M := by
      have hc : M.countP isUserMsg = nUserMsgs M := by
        rw [nUserMsgs, userMsgs, List.countP_eq_length_filter]
      omega
    rw [lastNAux_eq_spec n (nUserMsgs M) M 0 hinv]
    apply lastNSpecAux_get_preserved n (nUserMsgs M) M 0 i e hgetM
    rcases hudata with hu | ⟨_, hub0, _⟩
    · exact Or.inl hu
    · refine Or.inr ⟨rfl, ?_⟩
      have : usersBefore M i = 0 := by rw [hub, hub0]
      exact this
  refine ⟨hget, hSFE, ?_, ?_, ?_, ?_, ?_⟩
  · intro n ma thld
    exact hMaxN n ma thld H hget rfl
  · intro n out hout
    obtain ⟨hn, hout'⟩ := lastN_ok_inv H n out hout
    subst hout'
    exact hLastN n H hget rfl
  · have hkb : keptBefore H i = i := keptBefore_eq_of_noDrop H hnd i (Nat.le_of_lt hi)
    have hnde : isDropped e = false := hnd e (List.get?_mem hget)
    have hcg := cwCall_get H i e hget hnde
    rw [hkb] at hcg
    rw [hcg, cwOut_eq_self e _ hcwP]
  · intro out hout
    unfold max5NoFECall at hout
    cases hsfe : stripFailedEditsCall H with
    | none => rw [hsfe] at hout; exact absurd hout (by simp)
    | some mid =>
      rw [hsfe] at hout
      have hout2 : maxNCall 5 10 200 mid = out := by simpa using hout
      subst hout2
      have hmid : mid.get? i = some e := hSFE mid hsfe
      have hub : usersBefore mid i = usersBefore H i := sfe_countP_take H mid hsfe i
      exact hMaxN 5 10 200 mid hmid hub
  · intro out hout
    unfold last5NoFECall at hout
    cases hsfe : stripFailedEditsCall H with
    | none => rw [hsfe] at hout; exact absurd hout (by simp)
    | some mid =>
      rw [hsfe] at hout
      have hout2 : (lastNHistory mid 5).toOption = some out := by simpa using hout
      have h5 : lastNHistory mid 5 = .ok (lastNAux 5 (nUserMsgs mid) mid 0) := by
        unfold lastNHistory
        rw [if_neg (by omega)]
      rw [h5] at hout2
      have hout3 : lastNAux 5 (nUserMsgs mid) mid 0 = out := by
        simpa [Except.toOption] using hout2
      subst hout3
      have hmid : mid.get? i = some e := hSFE mid hsfe
      have hub : usersBefore mid i = usersBefore H i := sfe_countP_take H mid hsfe i
      exact hLastN 5 mid hmid hub

/-- Claim C3 witness: on the twelve-entry test history the system entry
at position 0 is preserved by the stale-view strategy. -/
theorem C3_witness :
    (closedWindowCall history1).get? 0 = some (sysE "Welcome to the SWE-Agent!") :=
  (C3_protected_entries history1 (by decide) 0 (sysE "Welcome to the SWE-Agent!")
    (by decide) (Or.inl (by decide))).2.2.2.2.1

/-- Writing a cell preserves the heap size. -/
theorem Heap.length_store (h : Heap) (r : Nat) (e : Entry) :
    (h.store r e).cells.length = h.cells.length := by
  simp [Heap.store]

/-- Allocation grows the heap by one cell. -/
theorem Heap.length_alloc (h : Heap) (e : Entry) :
    (h.alloc e).1.cells.length = h.cells.length + 1 := by
  simp [Heap.alloc]

/-- Writing one cell leaves every other cell unchanged. -/
theorem Heap.read_store_ne (h : Heap) (r : Nat) (e : Entry) (a : Nat) (ha : a ≠ r) :
    (h.store r e).read a = h.read a := by
  unfold Heap.read Heap.store
  rw [List.getElem?_set_ne (by omega)]

/-- Allocation leaves the existing cells unchanged. -/
theorem Heap.read_alloc_old (h : Heap) (e : Entry) (a : Nat) (ha : a < h.cells.length) :
    (h.alloc e).1.read a = h.read a := by
  unfold Heap.read Heap.alloc
  rw [List.getElem?_append_left ha]

/-- Deep-copying only allocates: existing cells are unchanged. -/
theorem deepcopyH_frame (refs : List Nat) :
    ∀ (h : Heap) (a : Nat), a < h.cells.length →
    ((deepcopyH h refs).1).read a = h.read a := by
  induction refs with
  | nil => intro h a _; rfl
  | cons r rs ih =>
    intro h a ha
    simp only [deepcopyH]
    rw [ih ((h.alloc (h.read r)).1) a (by rw [Heap.length_alloc]; omega)]
    exact Heap.read_alloc_old h (h.read r) a ha

/-- Deep-copying never shrinks the heap. -/
theorem deepcopyH_len (refs : List Nat) :
    ∀ h : Heap, h.cells.length ≤ ((deepcopyH h refs).1).cells.length := by
  induction refs with
  | nil => intro h; exact Nat.le_refl _
  | cons r rs ih =>
    intro h
    simp only [deepcopyH]
    have h1 := ih ((h.alloc (h.read r)).1)
    rw [Heap.length_alloc] at h1
    omega

/-- Every address returned by a deepcopy is fresh (at or above the
original heap size). -/
theorem deepcopyH_refs_ge (refs : List Nat) :
    ∀ (h : Heap) (x : Nat), x ∈ (deepcopyH h refs).2 → h.cells.length ≤ x := by
  induction refs with
  | nil => intro h x hx; simp [deepcopyH] at hx
  | cons r rs ih =>
    intro h x hx
    simp only [deepcopyH, List.mem_cons] at hx
    rcases hx with hx | hx
    · subst hx
      simp [Heap.alloc]
    · have := ih ((h.alloc (h.read r)).1) x hx
      rw [Heap.length_alloc] at this
      omega

/-- The failed-edit mutation loop writes only to the given (fresh)
addresses, leaving the region below them unchanged. -/
theorem sfeHeapLoop_frame (refs : List Nat) :
    ∀ (h : Heap) (m : Nat), (∀ r ∈ refs, m ≤ r) → ∀ a < m,
    (sfeHeapLoop h refs).read a = h.read a := by
  induction refs with
  | nil => intro h m _ a _; rfl
  | cons r rs ih =>
    intro h m hge a ha
    have hr : m ≤ r := hge r (by simp)
    simp only [sfeHeapLoop]
    rw [ih _ m (fun x hx => hge x (by simp [hx])) a ha]
    by_cases hfe : isFailedEdit (h.read r) = true
    · simp only [hfe, if_true]
      exact Heap.read_store_ne h r _ a (by omega)
    · simp [hfe]

/-- The failed-edit mutation loop performs no allocation. -/
theorem sfeHeapLoop_len (refs : List Nat) :
    ∀ h : Heap, (sfeHeapLoop h refs).cells.length = h.cells.length := by
  induction refs with
  | nil => intro h; rfl
  | cons r rs ih =>
    intro h
    simp only [sfeHeapLoop]
    rw [ih]
    by_cases hfe : isFailedEdit (h.read r) = true
    · simp [hfe, Heap.length_store]
    · simp [hfe]

/-- Failed-edit suppression never mutates the caller's entries: it only
writes to cells it first deep-copied. -/
theorem sfeHeap_frame (h : Heap) (refs : List Nat) (a : Nat) (ha : a < h.cells.length) :
    (sfeHeap h refs).1.read a = h.read a := by
  unfold sfeHeap
  cases hl : (deepcopyH h refs).2.getLast? with
  | none => simp only [hl]; exact deepcopyH_frame refs h a ha
  | some lastRef =>
    simp only [hl]
    rw [sfeHeapLoop_frame _ _ h.cells.length ?ge a ha]
    · exact deepcopyH_frame refs h a ha
    case ge =>
      intro r hr
      exact deepcopyH_refs_ge refs h r
        (List.dropLast_subset _ hr)

/-- Failed-edit suppression never shrinks the heap. -/
theorem sfeHeap_len (h : Heap) (refs : List Nat) :
    h.cells.length ≤ (sfeHeap h refs).1.cells.length := by
  unfold sfeHeap
  cases hl : (deepcopyH h refs).2.getLast? with
  | none => simp only [hl]; exact deepcopyH_len refs h
  | some lastRef =>
    simp only [hl]
    rw [sfeHeapLoop_len]
    exact deepcopyH_len refs h

/-- The count/age-bounded mutation loop writes only to the given (fresh)
addresses. -/
theorem maxNHeapLoop_frame (n ma thld : Int) (nU nL : Nat) (refs : List Nat) :
    ∀ (h : Heap) (idx added m : Nat), (∀ r ∈ refs, m ≤ r) → ∀ a < m,
    (maxNHeapLoop n ma thld nU nL h refs idx added).1.read a = h.read a := by
  induction refs with
  | nil => intro h idx added m _ a _; rfl
  | cons r rs ih =>
    intro h idx added m hge a ha
    have hr : m ≤ r := hge r (by simp)
    have hge' : ∀ x ∈ rs, m ≤ x := fun x hx => hge x (by simp [hx])
    by_cases h1 : (h.read r).role = "user"
    · by_cases h2 : (h.read r).is_demo = true
      · simpa [maxNHeapLoop, h1, h2] using ih h idx added m hge' a ha
      · have h2' : (h.read r).is_demo = false := by simpa using h2
        by_cases h3 : idx + 1 = 1
        · simpa [maxNHeapLoop, h1, h2', h3] using ih h (idx + 1) added m hge' a ha
        · by_cases h4 : ((nL : Int) - (added : Int) > n
              ∨ (nU : Int) - ((idx : Int) + 1) > ma)
              ∧ ((h.read r).content.length : Int) > thld
          · have hs := ih (h.store r (stripObservation (h.read r))) (idx + 1) added m hge' a ha
            rw [Heap.read_store_ne h r _ a (by omega)] at hs
            simpa [maxNHeapLoop, h1, h2', h3, h4] using hs
          · simpa [maxNHeapLoop, h1, h2', h3, h4] using ih h (idx + 1) (added + 1) m hge' a ha
    · simpa [maxNHeapLoop, h1] using ih h idx added m hge' a ha

/-- The count/age-bounded mutation loop performs no allocation. -/
theorem maxNHeapLoop_len (n ma thld : Int) (nU nL : Nat) (refs : List Nat) :
    ∀ (h : Heap) (idx added : Nat),
    (maxNHeapLoop n ma thld nU nL h refs idx added).1.cells.length = h.cells.length := by
  induction refs with
  | nil => intro h idx added; rfl
  | cons r rs ih =>
    intro h idx added
    by_cases h1 : (h.read r).role = "user"
    · by_cases h2 : (h.read r).is_demo = true
      · simpa [maxNHeapLoop, h1, h2] using ih h idx added
      · have h2' : (h.read r).is_demo = false := by simpa using h2
        by_cases h3 : idx + 1 = 1
        · simpa [maxNHeapLoop, h1, h2', h3] using ih h (idx + 1) added
        · by_cases h4 : ((nL : Int) - (added : Int) > n
              ∨ (nU : Int) - ((idx : Int) + 1) > ma)
              ∧ ((h.read r).content.length : Int) > thld
          · have hs := ih (h.store r (stripObservation (h.read r))) (idx + 1) added
            rw [Heap.length_store] at hs
            simpa [maxNHeapLoop, h1, h2', h3, h4] using hs
          · simpa [maxNHeapLoop, h1, h2', h3, h4] using ih h (idx + 1) (added + 1)
    · simpa [maxNHeapLoop, h1] using ih h idx added

/-- The count/age-bounded strategy never mutates the caller's entries. -/
theorem maxNHeap_frame (n ma thld : Int) (h : Heap) (refs : List Nat) (a : Nat)
    (ha : a < h.cells.length) :
    (maxNHeap n ma thld h refs).1.read a = h.read a := by
  unfold maxNHeap
  rw [maxNHeapLoop_frame n ma thld _ _ _ _ 0 0 h.cells.length
    (fun r hr => deepcopyH_refs_ge refs h r hr) a ha]
  exact deepcopyH_frame refs h a ha

/-- The index-window loop mutates only the per-entry copies it
allocates itself. -/
theorem lastNHeapLoop_frame (n : Int) (nU : Nat) (refs : List Nat) :
    ∀ (h : Heap) (idx m : Nat), m ≤ h.cells.length → ∀ a < m,
    (lastNHeapLoop n nU h refs idx).1.read a = h.read a := by
  induction refs with
  | nil => intro h idx m _ a _; rfl
  | cons r rs ih =>
    intro h idx m hm a ha
    by_cases h1 : (h.read r).role = "user"
    · by_cases h2 : (h.read r).is_demo = true
      · simpa [lastNHeapLoop, h1, h2] using ih h idx m hm a ha
      · have h2' : (h.read r).is_demo = false := by simpa using h2
        simp only [lastNHeapLoop]
        rw [if_neg (by simp [h1]), if_neg (by simp [h2'])]
        split
        · simpa using ih h (idx + 1) m hm a ha
        · have hs := ih (((h.alloc (h.read r)).1).store (h.alloc (h.read r)).2
              (stripObservation (h.read r))) (idx + 1) m ?hlen a ha
          case hlen =>
            rw [Heap.length_store, Heap.length_alloc]
            omega
          rw [Heap.read_store_ne _ _ _ a ?hne] at hs
          case hne =>
            have hd : (h.alloc (h.read r)).2 = h.cells.length := rfl
            omega
          rw [Heap.read_alloc_old h (h.read r) a (by omega)] at hs
          simpa using hs
    · simpa [lastNHeapLoop, h1] using ih h idx m hm a ha

/-- The index-window strategy never mutates the caller's entries (and on
a non-positive n it raises before touching the heap at all). -/
theorem lastNHeap_frame (h : Heap) (refs : List Nat) (n : Int) (a : Nat)
    (ha : a < h.cells.length) :
    (lastNHeap h refs n).1.read a = h.read a := by
  unfold lastNHeap
  by_cases hn : n ≤ 0
  · simp [hn]
  · simp only [hn, if_false]
    exact lastNHeapLoop_frame n _ refs h 0 h.cells.length (Nat.le_refl _) a ha

/-- The stale-view loop mutates only the per-entry copies it allocates
itself. -/
theorem cwHeapLoop_frame (refs : List Nat) :
    ∀ (h : Heap) (w : List (List Char)) (m : Nat), m ≤ h.cells.length → ∀ a < m,
    (cwHeapLoop h refs w).1.read a = h.read a := by
  induction refs with
  | nil => intro h w m _ a _; rfl
  | cons r rs ih =>
    intro h w m hm a ha
    by_cases h1 : (h.read r).role = "user"
    · by_cases h2 : (h.read r).is_demo = true
      · simpa [cwHeapLoop, h1, h2] using ih h w m hm a ha
      · have h2' : (h.read r).is_demo = false := by simpa using h2
        cases hsp : numberedSpans (h.read r).content with
        | nil =>
          have hs := ih ((h.alloc (h.read r)).1) w m (by rw [Heap.length_alloc]; omega) a ha
          rw [Heap.read_alloc_old h (h.read r) a (by omega)] at hs
          simpa [cwHeapLoop, h1, h2', hsp] using hs
        | cons sp sps =>
          cases hfs : fileSearchChars (h.read r).content with
          | none => simpa [cwHeapLoop, h1, h2', hsp, hfs] using ih h w m hm a ha
          | some f =>
            by_cases hw : f ∈ w
            · have hs := ih (((h.alloc (h.read r)).1).store (h.alloc (h.read r)).2
                  { h.read r with content := collapseContent (h.read r).content })
                  (insertFile f w) m (by rw [Heap.length_store, Heap.length_alloc]; omega) a ha
              rw [Heap.read_store_ne _ _ _ a ?hne] at hs
              case hne =>
                have hd : (h.alloc (h.read r)).2 = h.cells.length := rfl
                omega
              rw [Heap.read_alloc_old h (h.read r) a (by omega)] at hs
              simpa [cwHeapLoop, h1, h2', hsp, hfs, hw] using hs
            · have hs := ih ((h.alloc (h.read r)).1) (insertFile f w) m
                  (by rw [Heap.length_alloc]; omega) a ha
              rw [Heap.read_alloc_old h (h.read r) a (by omega)] at hs
              simpa [cwHeapLoop, h1, h2', hsp, hfs, hw] using hs
    · simpa [cwHeapLoop, h1] using ih h w m hm a ha

/-- The stale-view strategy never mutates the caller's entries. -/
theorem cwHeap_frame (h : Heap) (refs : List Nat) (a : Nat)
    (ha : a < h.cells.length) :
    (cwHeap h refs).1.read a = h.read a := by
  unfold cwHeap
  exact cwHeapLoop_frame refs.reverse h [] h.cells.length (Nat.le_refl _) a ha

/-- The failed-edit-then-count/age composite never mutates the caller's
entries. -/
theorem max5NoFEHeap_frame (h : Heap) (refs : List Nat) (a : Nat)
    (ha : a < h.cells.length) :
    (max5NoFEHeap h refs).1.read a = h.read a := by
  unfold max5NoFEHeap
  cases hs : sfeHeap h refs with
  | mk h1 res =>
    cases res with
    | none => have := sfeHeap_frame h refs a ha; rw [hs] at this; simpa using this
    | some refs1 =>
      have hfr : h1.read a = h.read a := by
        have := sfeHeap_frame h refs a ha
        rw [hs] at this
        simpa using this
      have hlen : h.cells.length ≤ h1.cells.length := by
        have := sfeHeap_len h refs
        rw [hs] at this
        simpa using this
      have := maxNHeap_frame 5 10 200 h1 refs1 a (by omega)
      simp only []
      rw [this, hfr]

/-- The failed-edit-then-index-window composite never mutates the
caller's entries. -/
theorem last5NoFEHeap_frame (h : Heap) (refs : List Nat) (a : Nat)
    (ha : a < h.cells.length) :
    (last5NoFEHeap h refs).1.read a = h.read a := by
  unfold last5NoFEHeap
  cases hs : sfeHeap h refs with
  | mk h1 res =>
    cases res with
    | none => have := sfeHeap_frame h refs a ha; rw [hs] at this; simpa using this
    | some refs1 =>
      have hfr : h1.read a = h.read a := by
        have := sfeHeap_frame h refs a ha
        rw [hs] at this
        simpa using this
      have hlen : h.cells.length ≤ h1.cells.length := by
        have := sfeHeap_len h refs
        rw [hs] at this
        simpa using this
      have h2 := lastNHeap_frame h1 refs1 5 a (by omega)
      dsimp only
      cases hl : lastNHeap h1 refs1 5 with
      | mk h2h r2 =>
        rw [hl] at h2
        cases r2 with
        | error msg => simpa using (h2.trans hfr)
        | ok out2 => simpa using (h2.trans hfr)

/-- Claim C9: every strategy application is side-effect-free on its
input. In the heap model, where history entries are dict cells and each
processor's allocations (deepcopy, per-entry copies) and in-place writes
are explicit, running any of the seven strategies on any list of cell
addresses leaves every pre-existing cell unchanged — even when the
returned history differs, and even on inputs where the strategy raises
(the raise happens before or after only fresh cells were written). -/
theorem C9_side_effect_free (h : Heap) (refs : List Nat) (a : Nat)
    (ha : a < h.cells.length) :
    (defaultHeap h refs).1.read a = h.read a
    ∧ (sfeHeap h refs).1.read a = h.read a
    ∧ (∀ n ma thld : Int, (maxNHeap n ma thld h refs).1.read a = h.read a)
    ∧ (∀ n : Int, (lastNHeap h refs n).1.read a = h.read a)
    ∧ (cwHeap h refs).1.read a = h.read a
    ∧ (max5NoFEHeap h refs).1.read a = h.read a
    ∧ (last5NoFEHeap h refs).1.read a = h.read a :=
  ⟨rfl, sfeHeap_frame h refs a ha,
   fun n ma thld => maxNHeap_frame n ma thld h refs a ha,
   fun n => lastNHeap_frame h refs n a ha,
   cwHeap_frame h refs a ha,
   max5NoFEHeap_frame h refs a ha,
   last5NoFEHeap_frame h refs a ha⟩

/-- Claim C9 witness: on a two-entry heap whose first entry is a failed
edit (which failed-edit suppression rewrites in its output), the original
first cell is unchanged after the call. -/
theorem C9_witness :
    0 < (Heap.mk [uE "Your proposed edit has introduced new syntax error",
        uE "ok"]).cells.length
    ∧ (sfeHeap ⟨[uE "Your proposed edit has introduced new syntax error", uE "ok"]⟩
          [0, 1]).1.read 0
        = Heap.read ⟨[uE "Your proposed edit has introduced new syntax error", uE "ok"]⟩ 0 :=
  ⟨by decide,
   (C9_side_effect_free ⟨[uE "Your proposed edit has introduced new syntax error", uE "ok"]⟩
      [0, 1] 0 (by decide)).2.1⟩

-- Cross-validation of the regular-expression model: the spans of
-- ClosedWindowHistoryProcessor.pattern and the group of
-- file_pattern.search on assorted inputs, and the splitlines counts,
-- each checked against the behavior of the Python patterns.

example : numberedSpans (chars "1:a\nmid\n2:b") = [(0, 4), (8, 11)] := by decide
example : numberedSpans (chars "12:\n") = [(0, 4)] := by decide
example : numberedSpans (chars "a1:x\n") = [] := by decide
example : numberedSpans (chars ":x\n0:y") = [(3, 6)] := by decide

example : fileSearchChars (chars "[File: a.py (10 lines total)] ... [File: b.py (3 lines total)]")
    = some (chars "a.py (10 lines total)] ... [File: b.py") := by decide
example : fileSearchChars (chars "[File:\na.py\n(10 lines total)]") = some (chars "a.py") := by
  decide
example : fileSearchChars (chars "xx [File:  sp aced.py  (7 lines total)] yy")
    = some (chars "sp aced.py ") := by decide
example : fileSearchChars (chars "[File: a.py (x lines total)]") = none := by decide

example : lineCount (chars "") = 0 := by decide
example : lineCount (chars "a\n") = 1 := by decide
example : lineCount (chars "\n") = 1 := by decide
example : lineCount (chars "a\n\nb") = 3 := by decide

/-- Model of `test_strip_failed_edits`: the two middle failed edits are
replaced, the final failed edit is exempt. -/
example : stripFailedEditsCall history3 =
    some [sysE "Welcome to the SWE-Agent!", demoE "This is a demo message",
      uE "1 VERY LONG", astE "VERY LONG", uE "3", uE "4 VERY LONG", uE "5",
      uE "6 VERY LONG", uE "Output of failed edit omitted.",
      uE "Output of failed edit omitted.", uE "9",
      uE "10 Your proposed edit has introduced new syntax error"] := by decide
